import Mathlib

set_option maxHeartbeats 1000000
set_option maxRecDepth 2000
set_option linter.unusedVariables false

namespace VafastCli

/-- JSON values, the data reaching the generator after the contract document
is parsed (models arbitrary JavaScript JSON data; objects are ordered
key-value lists, numbers are modelled as integers). -/
inductive Json where
  | null : Json
  | bool : Bool → Json
  | num : Int → Json
  | str : String → Json
  | arr : List Json → Json
  | obj : List (String × Json) → Json

mutual

/-- A size measure on JSON values, used to justify termination of the
schema-to-type mapper.  Strings have constant size so that values derived
from a string (single characters) are never larger than the string. -/
def Json.size : Json → Nat
  | .null => 1
  | .bool _ => 1
  | .num _ => 1
  | .str _ => 1
  | .arr xs => 1 + Json.sizeElems xs
  | .obj fs => 1 + Json.sizeFields fs

def Json.sizeElems : List Json → Nat
  | [] => 0
  | x :: xs => Json.size x + Json.sizeElems xs

def Json.sizeFields : List (String × Json) → Nat
  | [] => 0
  | (_, v) :: fs => Json.size v + Json.sizeFields fs

end

/-- JavaScript truthiness for JSON values. -/
def Json.truthy : Json → Bool
  | .null => false
  | .bool b => b
  | .num n => n != 0
  | .str s => s != ""
  | .arr _ => true
  | .obj _ => true

/-- First-match lookup in an ordered association list (models reading a
property of a JavaScript object, and lookup in a JavaScript Map). -/
def mapLookup {α : Type} : List (String × α) → String → Option α
  | [], _ => none
  | (k, v) :: rest, key => if k = key then some v else mapLookup rest key

/-- In-place update or append (models JavaScript Map.set: existing keys
keep their position, new keys are appended at the end). -/
def mapSet {α : Type} : List (String × α) → String → α → List (String × α)
  | [], key, v => [(key, v)]
  | (k, w) :: rest, key, v =>
      if k = key then (k, v) :: rest else (k, w) :: mapSet rest key v

/-- Reading a named property of a JSON value (undefined on non-objects). -/
def Json.getField : Json → String → Option Json
  | .obj fs, k => mapLookup fs k
  | _, _ => none

/-- A named property that is present and truthy (models the JavaScript
pattern if (s.field) over a schema node). -/
def truthyField (s : Json) (k : String) : Option Json :=
  match s.getField k with
  | some v => if v.truthy then some v else none
  | none => none

theorem Json.size_pos : ∀ j : Json, 0 < j.size := by
  intro j
  cases j <;> simp [Json.size]

theorem mapLookup_sizeFields {fs : List (String × Json)} {k : String}
    {v : Json} (h : mapLookup fs k = some v) :
    v.size ≤ Json.sizeFields fs := by
  induction fs with
  | nil => simp [mapLookup] at h
  | cons kv rest ih =>
      obtain ⟨k', w⟩ := kv
      simp only [mapLookup] at h
      by_cases hk : k' = k
      · simp [hk] at h
        subst h
        simp [Json.sizeFields]
      · simp [hk] at h
        calc v.size ≤ Json.sizeFields rest := ih h
        _ ≤ Json.sizeFields ((k', w) :: rest) := by
              simp [Json.sizeFields]

theorem Json.getField_size {s : Json} {k : String} {v : Json}
    (h : s.getField k = some v) : v.size < s.size := by
  cases s <;> simp [Json.getField] at h
  case obj fs =>
    have := mapLookup_sizeFields h
    simp [Json.size]
    omega

theorem truthyField_size {s : Json} {k : String} {v : Json}
    (h : truthyField s k = some v) : v.size < s.size := by
  unfold truthyField at h
  cases hg : s.getField k with
  | none => simp [hg] at h
  | some w =>
      simp [hg] at h
      by_cases hw : w.truthy
      · simp [hw] at h
        subst h
        exact Json.getField_size hg
      · simp [hw] at h

/-- Object.values of a truthy JavaScript value: field values of an object,
elements of an array, one-character strings for a string, empty for
numbers and booleans. -/
def valuesOf : Json → List Json
  | .obj fs => fs.map (fun kv => kv.2)
  | .arr xs => xs
  | .str s => s.toList.map (fun c => Json.str (String.singleton c))
  | _ => []

/-- Object.entries of a truthy JavaScript value. -/
def entriesOf : Json → List (String × Json)
  | .obj fs => fs
  | .arr xs => (xs.enum).map (fun p => (toString p.1, p.2))
  | .str s => (s.toList.enum).map
      (fun p => (toString p.1, Json.str (String.singleton p.2)))
  | _ => []

theorem valuesOf_head_size {pp p : Json} {rest : List Json}
    (h : valuesOf pp = p :: rest) : p.size ≤ pp.size := by
  cases pp <;> simp [valuesOf] at h
  case str s =>
    cases hd : s.data with
    | nil => rw [hd] at h; simp at h
    | cons c t =>
        rw [hd] at h
        simp at h
        rw [← h.1]
        simp [Json.size]
  case arr xs =>
    cases xs with
    | nil => simp at h
    | cons x t =>
        simp at h
        obtain ⟨hx, _⟩ := h
        subst hx
        simp [Json.size, Json.sizeElems]
        omega
  case obj fs =>
    cases fs with
    | nil => simp at h
    | cons kv t =>
        simp at h
        obtain ⟨hx, _⟩ := h
        subst hx
        simp [Json.size, Json.sizeFields]
        omega

theorem sizeFields_enumFrom (xs : List Json) (n : Nat) :
    Json.sizeFields ((xs.enumFrom n).map (fun p => (toString p.1, p.2)))
      = Json.sizeElems xs := by
  induction xs generalizing n with
  | nil => simp [Json.sizeFields, Json.sizeElems]
  | cons x t ih =>
      simp [List.enumFrom, Json.sizeFields, Json.sizeElems, ih]

theorem entriesOf_size {p : Json} (hp : ∀ s, p ≠ .str s) :
    Json.sizeFields (entriesOf p) < p.size := by
  cases p with
  | null => simp [entriesOf, Json.sizeFields, Json.size]
  | bool b => simp [entriesOf, Json.sizeFields, Json.size]
  | num n => simp [entriesOf, Json.sizeFields, Json.size]
  | str s => exact absurd rfl (hp s)
  | arr xs =>
      simp [entriesOf, Json.size, List.enum]
      rw [sizeFields_enumFrom]
      omega
  | obj fs => simp [entriesOf, Json.size]

/-- Hexadecimal digit used by the control-character escape. -/
def hexDigit (n : Nat) : String :=
  String.singleton (("0123456789abcdef".toList).getD n '0')

/-- One character of a JSON string literal, as JSON.stringify escapes it. -/
def jsEscapeChar (c : Char) : String :=
  if c = '"' then "\\\""
  else if c = '\\' then "\\\\"
  else if c = '\n' then "\\n"
  else if c = '\r' then "\\r"
  else if c = '\t' then "\\t"
  else if c = Char.ofNat 8 then "\\b"
  else if c = Char.ofNat 12 then "\\f"
  else if c.toNat < 32 then
    "\\u00" ++ hexDigit (c.toNat / 16) ++ hexDigit (c.toNat % 16)
  else String.singleton c

/-- A JSON string literal, as JSON.stringify renders it. -/
def jsStringLit (s : String) : String :=
  "\"" ++ String.join (s.toList.map jsEscapeChar) ++ "\""

mutual

/-- JSON.stringify on JSON values (used for const and enum rendering). -/
def jsonStringify : Json → String
  | .null => "null"
  | .bool b => cond b "true" "false"
  | .num n => toString n
  | .str s => jsStringLit s
  | .arr xs => "[" ++ jsonStringifyElems xs ++ "]"
  | .obj fs => "\x7b" ++ jsonStringifyFields fs ++ "\x7d"

def jsonStringifyElems : List Json → String
  | [] => ""
  | [x] => jsonStringify x
  | x :: xs => jsonStringify x ++ "," ++ jsonStringifyElems xs

def jsonStringifyFields : List (String × Json) → String
  | [] => ""
  | [(k, v)] => jsStringLit k ++ ":" ++ jsonStringify v
  | (k, v) :: fs => jsStringLit k ++ ":" ++ jsonStringify v ++ ","
      ++ jsonStringifyFields fs

end

/-- The set backing required-name membership: new Set(schema.required ||
[]), keeping only the string members (only those can match a property
name).  Returns none when the value is truthy but not iterable, where
JavaScript throws a TypeError. -/
def requiredKeys : Option Json → Option (List String)
  | none => some []
  | some v =>
      if v.truthy then
        match v with
        | .arr xs => some (xs.filterMap (fun x =>
            match x with
            | .str s => some s
            | _ => none))
        | .str s => some (s.toList.map (fun c => String.singleton c))
        | _ => none
      else some []

/-- typeof v === 'object' in JavaScript (true for null, arrays, objects). -/
def typeofIsObject : Json → Bool
  | .null => true
  | .arr _ => true
  | .obj _ => true
  | _ => false

/-- The values passing the guard !schema || typeof schema !== 'object':
truthy objects.  Arrays and objects are the only JSON values that are both
truthy and of typeof object (null is falsy). -/
def isSchemaObject : Json → Bool
  | .arr _ => true
  | .obj _ => true
  | _ => false

def Json.isStr : Json → Bool
  | .str _ => true
  | _ => false

def Json.strVal : Json → String
  | .str s => s
  | _ => ""

theorem entriesOf_size_of_not_isStr {p : Json} (hp : p.isStr = false) :
    Json.sizeFields (entriesOf p) < p.size := by
  apply entriesOf_size
  intro s hs
  subst hs
  simp [Json.isStr] at hp

mutual

/-- The schema-to-type mapper (schemaToType in src/codegen/schema-to-type.ts).
Returns none where the JavaScript code throws a TypeError (calling .map on a
truthy non-array composition field, or iterating a truthy non-iterable
required field); otherwise some with the rendered TypeScript type text. -/
def schemaToType (schema : Json) : Option String :=
  if !(isSchemaObject schema) then some "unknown" else
    match schema.getField "const" with
    | some c => some (jsonStringify c)
    | none =>
    match truthyField schema "enum" with
    | some (.arr vs) => some (String.intercalate " | " (vs.map jsonStringify))
    | some _ => none
    | none =>
    match hany : truthyField schema "anyOf" with
    | some (.arr vs) => (schemaListTypes vs).map (String.intercalate " | ")
    | some _ => none
    | none =>
    match hone : truthyField schema "oneOf" with
    | some (.arr vs) => (schemaListTypes vs).map (String.intercalate " | ")
    | some _ => none
    | none =>
    match hall : truthyField schema "allOf" with
    | some (.arr vs) => (schemaListTypes vs).map (String.intercalate " & ")
    | some _ => none
    | none =>
    match schema.getField "type" with
    | some (.str "string") => some "string"
    | some (.str "number") => some "number"
    | some (.str "integer") => some "number"
    | some (.str "boolean") => some "boolean"
    | some (.str "null") => some "null"
    | some (.str "array") => arrayToType schema
    | some (.str "object") => objectToType schema
    | _ =>
        match truthyField schema "properties" with
        | some _ => objectToType schema
        | none => some "unknown"
termination_by 4 * schema.size + 3
decreasing_by
  all_goals simp_wf
  all_goals first
    | omega
    | (have h := truthyField_size hany; simp [Json.size] at h; omega)
    | (have h := truthyField_size hone; simp [Json.size] at h; omega)
    | (have h := truthyField_size hall; simp [Json.size] at h; omega)

/-- arrayToType in src/codegen/schema-to-type.ts. -/
def arrayToType (schema : Json) : Option String :=
  match hitems : truthyField schema "items" with
  | some it => (schemaToType it).map (fun t => t ++ "[]")
  | none => some "unknown[]"
termination_by 4 * schema.size + 2
decreasing_by
  all_goals simp_wf
  all_goals (have h := truthyField_size hitems; omega)

/-- objectToType in src/codegen/schema-to-type.ts. -/
def objectToType (schema : Json) : Option String :=
  match hpat : truthyField schema "patternProperties" with
  | some pp =>
      match hv : valuesOf pp with
      | [] => some "Record<string, unknown>"
      | p :: _ =>
          if p.truthy then
            (schemaToType p).map (fun t => "Record<string, " ++ t ++ ">")
          else some "Record<string, unknown>"
  | none =>
  match hprops : truthyField schema "properties" with
  | none =>
      match haddp : schema.getField "additionalProperties" with
      | some (.bool true) => some "Record<string, unknown>"
      | some v =>
          if typeofIsObject v then
            (schemaToType v).map (fun t => "Record<string, " ++ t ++ ">")
          else some "Record<string, unknown>"
      | none => some "Record<string, unknown>"
  | some props =>
      match requiredKeys (schema.getField "required") with
      | none => none
      | some req =>
          if hstr : props.isStr then
            -- Object.entries of a string yields index-keyed one-character
            -- strings, and schemaToType of any string is "unknown" (a
            -- string is not a JavaScript object); that value is inlined
            -- here.
            let ps := (props.strVal.toList.enum).map (fun p =>
              toString p.1
                ++ (if req.contains (toString p.1) then "" else "?")
                ++ ": unknown")
            if ps.isEmpty then some "Record<string, unknown>"
            else some ("\x7b " ++ String.intercalate "; " ps ++ " \x7d")
          else
            match propFields req (entriesOf props) with
            | none => none
            | some ps =>
                if ps.isEmpty then some "Record<string, unknown>"
                else some ("\x7b " ++ String.intercalate "; " ps ++ " \x7d")
termination_by 4 * schema.size + 2
decreasing_by
  all_goals simp_wf
  all_goals first
    | (have h1 := truthyField_size hpat
       have h2 := valuesOf_head_size hv
       omega)
    | (have h1 := Json.getField_size haddp
       omega)
    | (have h1 := truthyField_size hprops
       have h2 := entriesOf_size_of_not_isStr (p := props) (by simpa using hstr)
       omega)

/-- The element-wise mapping list.map(schemaToType) over union and
intersection members, propagating a thrown TypeError. -/
def schemaListTypes : List Json → Option (List String)
  | [] => some []
  | x :: xs =>
      match schemaToType x with
      | none => none
      | some t =>
          match schemaListTypes xs with
          | none => none
          | some ts => some (t :: ts)
termination_by l => 4 * Json.sizeElems l + 4
decreasing_by
  all_goals simp_wf
  all_goals simp only [Json.sizeElems]
  all_goals (first
    | omega
    | (have h := Json.size_pos x; omega))

/-- The property loop of objectToType: one rendered field per declared
property, optional unless the name is in the required set. -/
def propFields (req : List String) : List (String × Json) → Option (List String)
  | [] => some []
  | (k, v) :: rest =>
      match schemaToType v with
      | none => none
      | some t =>
          match propFields req rest with
          | none => none
          | some fs =>
              some ((k ++ (if req.contains k then "" else "?") ++ ": " ++ t)
                :: fs)
termination_by l => 4 * Json.sizeFields l + 4
decreasing_by
  all_goals simp_wf
  all_goals simp only [Json.sizeFields]
  all_goals (first
    | omega
    | (have h := Json.size_pos v; omega))

end

/-- The per-route schema block {body, query, params, response} of the
contract document (interface RouteContract in src/commands/sync.ts). -/
structure RouteSchema where
  body : Option Json := none
  query : Option Json := none
  params : Option Json := none
  response : Option Json := none

/-- One route descriptor of the contract document. -/
structure RouteContract where
  method : String
  path : String
  name : Option String := none
  description : Option String := none
  sse : Bool := false
  schema : Option RouteSchema := none

/-- Reads route.schema?.field (undefined when the schema block is absent). -/
def schemaFieldOf (r : RouteContract) (f : RouteSchema → Option Json) :
    Option Json :=
  match r.schema with
  | some s => f s
  | none => none

/-- Keeps an optional value only when present and truthy (the JavaScript
pattern if (route.schema?.field)). -/
def truthyOpt : Option Json → Option Json
  | some v => if v.truthy then some v else none
  | none => none

/-- Runs the mapper on a present-and-truthy schema value: some none means
the field was absent or falsy (no parameter emitted), some (some t) the
mapped type, none a thrown TypeError. -/
def optMappedType (o : Option Json) : Option (Option String) :=
  match truthyOpt o with
  | some j =>
      match schemaToType j with
      | some t => some (some t)
      | none => none
  | none => some none

/-- The return type of a route: mapped response schema when present and
truthy, the fallback any otherwise (line 218 of src/commands/sync.ts). -/
def returnTypeOf (r : RouteContract) : Option String :=
  match truthyOpt (schemaFieldOf r RouteSchema.response) with
  | some j => schemaToType j
  | none => some "any"

/-- generateMethodSignature in src/commands/sync.ts: the invocable-function
descriptor emitted into the client interface.  The method argument is
accepted and unused, as in the source. -/
def generateMethodSignature (route : RouteContract) (method : String) :
    Option String :=
  match returnTypeOf route with
  | none => none
  | some returnType =>
    if route.sse then
      match optMappedType (schemaFieldOf route RouteSchema.query) with
      | none => none
      | some oq =>
          let ps := (oq.toList.map (fun t => "query: " ++ t))
            ++ ["callbacks: SSECallbacks<" ++ returnType ++ ">",
                "options?: SSESubscribeOptions"]
          some ("(" ++ String.intercalate ", " ps ++ ") => SSESubscription<"
            ++ returnType ++ ">")
    else
      match optMappedType (schemaFieldOf route RouteSchema.body) with
      | none => none
      | some ob =>
      match optMappedType (schemaFieldOf route RouteSchema.query) with
      | none => none
      | some oq =>
          let ps := (ob.toList.map (fun t => "body: " ++ t))
            ++ (oq.toList.map (fun t => "query?: " ++ t))
            ++ ["config?: RequestConfig"]
          some ("(" ++ String.intercalate ", " ps ++ ") => Promise<ApiResponse<"
            ++ returnType ++ ">>")

/-- The parts array built by generateMethodType in src/commands/sync.ts:
query, body (skipped for streaming routes), params fields, then the
always-present return field. -/
def generateMethodTypeParts (route : RouteContract) : Option (List String) :=
  match optMappedType (schemaFieldOf route RouteSchema.query) with
  | none => none
  | some oq =>
  match (if route.sse then some none
         else optMappedType (schemaFieldOf route RouteSchema.body)) with
  | none => none
  | some ob =>
  match optMappedType (schemaFieldOf route RouteSchema.params) with
  | none => none
  | some op =>
  match optMappedType (schemaFieldOf route RouteSchema.response) with
  | none => none
  | some oret =>
      some ((oq.toList.map (fun t => "query: " ++ t))
        ++ (ob.toList.map (fun t => "body: " ++ t))
        ++ (op.toList.map (fun t => "params: " ++ t))
        ++ [match oret with
            | some t => "return: " ++ t
            | none => "return: any"])

/-- generateMethodType in src/commands/sync.ts: the structural descriptor
emitted into the contract type. -/
def generateMethodType (route : RouteContract) : Option String :=
  match generateMethodTypeParts route with
  | none => none
  | some parts =>
      match parts with
      | [p] => some ("\x7b " ++ p ++ " \x7d")
      | _ => some ("\x7b\n      " ++ String.intercalate "\n      " parts
          ++ "\n    \x7d")

/-- JavaScript string.startsWith(other), over the character-list model of
strings. -/
def strStartsWith (s pre : String) : Bool :=
  List.isPrefixOf pre.toList s.toList

/-- JavaScript string length (character count in this model). -/
def lengthStr (s : String) : Nat :=
  s.toList.length

/-- JavaScript string.slice(n), dropping the first n characters. -/
def dropStr (s : String) (n : Nat) : String :=
  String.mk (s.toList.drop n)

/-- JavaScript string.toLowerCase() over the character-list model. -/
def lowerStr (s : String) : String :=
  String.mk (s.toList.map Char.toLower)

/-- JavaScript string.split(sep) for a one-character separator, over
character lists: splitting the empty text yields one empty piece. -/
def splitOnChar (c : Char) : List Char → List (List Char)
  | [] => [[]]
  | x :: xs =>
      let r := splitOnChar c xs
      if x = c then [] :: r
      else
        match r with
        | [] => [[x]]
        | g :: gs => (x :: g) :: gs

/-- JavaScript path.split(sep) producing strings. -/
def splitSlash (s : String) : List String :=
  (splitOnChar '/' s.toList).map String.mk

/-- One node of the route trie (interface RouteTreeNode in
src/commands/sync.ts); methods and children are insertion-ordered maps. -/
inductive RouteTreeNode where
  | mk : List (String × RouteContract) → List (String × RouteTreeNode)
      → Bool → RouteTreeNode

def RouteTreeNode.methods : RouteTreeNode → List (String × RouteContract)
  | .mk ms _ _ => ms

def RouteTreeNode.children : RouteTreeNode → List (String × RouteTreeNode)
  | .mk _ cs _ => cs

def RouteTreeNode.isDynamic : RouteTreeNode → Bool
  | .mk _ _ d => d

/-- The method-map key of a route: the reserved key sse for streaming
routes, the lowercased verb otherwise (line 305 of src/commands/sync.ts). -/
def methodKey (route : RouteContract) : String :=
  if route.sse then "sse" else lowerStr route.method

/-- The canonical trie key of one path segment: segments beginning with the
dynamic marker collapse to the fixed sentinel (line 290 of
src/commands/sync.ts). -/
def canonKey (seg : String) : String :=
  if strStartsWith seg ":" then ":id" else seg

/-- One route inserted along its (already canonicalized-on-the-fly) path
segments: the loop body of buildRouteTree. -/
def insertRoute (route : RouteContract) :
    List String → List (String × RouteTreeNode) → List (String × RouteTreeNode)
  | [], tree => tree
  | seg :: rest, tree =>
      let isDyn := strStartsWith seg ":"
      let key := canonKey seg
      let node := (mapLookup tree key).getD (RouteTreeNode.mk [] [] isDyn)
      match rest with
      | [] => mapSet tree key
          (RouteTreeNode.mk (mapSet node.methods (methodKey route) route)
            node.children node.isDynamic)
      | _ :: _ => mapSet tree key
          (RouteTreeNode.mk node.methods
            (insertRoute route rest node.children) node.isDynamic)

/-- Strips leading and trailing separator runs from the supplied path
text (the replace of /^\/+|\/+$/g with the empty string). -/
def trimSlashes (s : String) : String :=
  String.mk (((s.toList.dropWhile (fun c => c == '/')).reverse.dropWhile
    (fun c => c == '/')).reverse)

/-- Normalizes the optional strip option: truthy text is trimmed of
leading/trailing separators and given exactly one leading separator;
otherwise no stripping takes place. -/
def normalizePfx : Option String → Option String
  | none => none
  | some p => if p == "" then none else some ("/" ++ trimSlashes p)

/-- Removes the normalized leading text from a route path only on a
literal leading match; an emptied path becomes the root marker. -/
def strippedPath (npfx : Option String) (path : String) : String :=
  match npfx with
  | some np =>
      if strStartsWith path np then
        let r := dropStr path (lengthStr np)
        if r = "" then "/" else r
      else path
  | none => path

/-- Splits a (possibly stripped) route path on the separator, discarding
empty segments. -/
def routeSegments (npfx : Option String) (path : String) : List String :=
  (splitSlash (strippedPath npfx path)).filter (fun s => s ≠ "")

/-- buildRouteTree in src/commands/sync.ts: folds the ordered route list
into the trie, skipping routes with no remaining segments. -/
def buildRouteTree (routes : List RouteContract) (pfxToStrip : Option String) :
    List (String × RouteTreeNode) :=
  let npfx := normalizePfx pfxToStrip
  routes.foldl (fun tree route =>
    let segs := routeSegments npfx route.path
    if segs.isEmpty then tree else insertRoute route segs tree) []

/-- Walks the trie along a key path to the addressed node. -/
def findNode : List (String × RouteTreeNode) → List String → Option RouteTreeNode
  | _, [] => none
  | tree, [k] => mapLookup tree k
  | tree, k :: rest =>
      match mapLookup tree k with
      | some n => findNode n.children rest
      | none => none

/-- The route registered at a trie address under a method key. -/
def methodAt (tree : List (String × RouteTreeNode)) (keys : List String)
    (m : String) : Option RouteContract :=
  match findNode tree keys with
  | some n => mapLookup n.methods m
  | none => none

/-- The quoting test of generateRouteTreeType (lines 324 to 326 of
src/commands/sync.ts): characters outside the identifier class, or a
leading digit, force quotes. -/
def treeNeedsQuotes (key : String) : Bool :=
  key.toList.any (fun c => !(c.isAlphanum || c == '_' || c == '$'))
    || (match key.toList with
        | [] => false
        | c :: _ => c.isDigit)

/-- The property name as rendered by generateRouteTreeType. -/
def treePropName (key : String) : String :=
  if treeNeedsQuotes key then "\x27" ++ key ++ "\x27" else key

/-- The quoting test of generateClientType (lines 183 to 184 of
src/commands/sync.ts), written there a second time. -/
def clientNeedsQuotes (key : String) : Bool :=
  key.toList.any (fun c => !(c.isAlphanum || c == '_' || c == '$'))
    || (match key.toList with
        | [] => false
        | c :: _ => c.isDigit)

/-- The property name as rendered by generateClientType. -/
def clientPropName (key : String) : String :=
  if clientNeedsQuotes key then "\x27" ++ key ++ "\x27" else key

/-- The indentation text, two spaces per level. -/
def padOf (indent : Nat) : String :=
  String.join (List.replicate indent "  ")

/-- The method lines of one node in the contract-type declaration: an
optional verbatim doc comment, then key: structural descriptor. -/
def treeMethodLines (pad : String) :
    List (String × RouteContract) → Option (List String)
  | [] => some []
  | (m, route) :: rest =>
      match generateMethodType route with
      | none => none
      | some mt =>
          match treeMethodLines pad rest with
          | none => none
          | some ls =>
              some ((match route.description with
                     | some d => [pad ++ "  /** " ++ d ++ " */"]
                     | none => [])
                ++ [pad ++ "  " ++ m ++ ": " ++ mt] ++ ls)

/-- The method lines of one node in the client-interface declaration: an
optional verbatim doc comment, then key: invocable signature. -/
def clientMethodLines (pad : String) :
    List (String × RouteContract) → Option (List String)
  | [] => some []
  | (m, route) :: rest =>
      match generateMethodSignature route m with
      | none => none
      | some sig =>
          match clientMethodLines pad rest with
          | none => none
          | some ls =>
              some ((match route.description with
                     | some d => [pad ++ "  /** " ++ d ++ " */"]
                     | none => [])
                ++ [pad ++ "  " ++ m ++ ": " ++ sig] ++ ls)

mutual

/-- The line list accumulated by generateRouteTreeType over the entries of
one trie level. -/
def genTreeLines : List (String × RouteTreeNode) → Nat → Option (List String)
  | [], _ => some []
  | (key, RouteTreeNode.mk ms cs d) :: rest, indent =>
      let pad := padOf indent
      match treeMethodLines pad ms with
      | none => none
      | some mls =>
          match (if cs.isEmpty then some []
                 else
                   match generateRouteTreeType cs (indent + 1) with
                   | none => none
                   | some s => some (if s = "" then [] else [s])) with
          | none => none
          | some childLs =>
              match genTreeLines rest indent with
              | none => none
              | some restLs =>
                  some ([pad ++ treePropName key ++ ": \x7b"] ++ mls
                    ++ childLs ++ [pad ++ "\x7d"] ++ restLs)
termination_by tree _ => 2 * sizeOf tree

/-- generateRouteTreeType in src/commands/sync.ts: the contract-type text
of one trie level, lines joined by newlines. -/
def generateRouteTreeType (tree : List (String × RouteTreeNode))
    (indent : Nat) : Option String :=
  match genTreeLines tree indent with
  | none => none
  | some ls => some (String.intercalate "\n" ls)
termination_by 2 * sizeOf tree + 1

end

mutual

/-- The line list accumulated by generateClientType over the entries of
one trie level. -/
def genClientLines : List (String × RouteTreeNode) → Nat → Option (List String)
  | [], _ => some []
  | (key, RouteTreeNode.mk ms cs d) :: rest, indent =>
      let pad := padOf indent
      match clientMethodLines pad ms with
      | none => none
      | some mls =>
          match (if cs.isEmpty then some []
                 else
                   match generateClientType cs (indent + 1) with
                   | none => none
                   | some s => some (if s = "" then [] else [s])) with
          | none => none
          | some childLs =>
              match genClientLines rest indent with
              | none => none
              | some restLs =>
                  some ([pad ++ clientPropName key ++ ": \x7b"] ++ mls
                    ++ childLs ++ [pad ++ "\x7d"] ++ restLs)
termination_by tree _ => 2 * sizeOf tree

/-- generateClientType in src/commands/sync.ts: the client-interface text
of one trie level, lines joined by newlines. -/
def generateClientType (tree : List (String × RouteTreeNode))
    (indent : Nat) : Option String :=
  match genClientLines tree indent with
  | none => none
  | some ls => some (String.intercalate "\n" ls)
termination_by 2 * sizeOf tree + 1

end

/-! Concrete schema nodes used by several evaluations. -/

def tStr : Json := Json.obj [("type", Json.str "string")]

def tNum : Json := Json.obj [("type", Json.str "number")]

theorem schemaToType_tStr : schemaToType tStr = some "string" := by
  simp [tStr, schemaToType, Json.getField, mapLookup, truthyField,
    isSchemaObject]

theorem schemaToType_tNum : schemaToType tNum = some "number" := by
  simp [tNum, schemaToType, Json.getField, mapLookup, truthyField,
    isSchemaObject]

/-- Element-wise application of a fallible function, propagating failure
and keeping source order (the shape shared by schemaListTypes and
propFields). -/
def mapOption {α β : Type} (f : α → Option β) : List α → Option (List β)
  | [] => some []
  | x :: xs =>
      match f x with
      | none => none
      | some b =>
          match mapOption f xs with
          | none => none
          | some bs => some (b :: bs)

theorem schemaListTypes_eq_mapOption (l : List Json) :
    schemaListTypes l = mapOption schemaToType l := by
  induction l with
  | nil => simp [schemaListTypes, mapOption]
  | cons x xs ih =>
      simp only [schemaListTypes, mapOption, ih]
      cases schemaToType x with
      | none => rfl
      | some t => cases mapOption schemaToType xs <;> rfl

theorem propFields_eq_mapOption (req : List String) (l : List (String × Json)) :
    propFields req l = mapOption (fun kv => (schemaToType kv.2).map
      (fun t => kv.1 ++ (if req.contains kv.1 then "" else "?") ++ ": " ++ t)) l := by
  induction l with
  | nil => simp [propFields, mapOption]
  | cons kv rest ih =>
      obtain ⟨k, v⟩ := kv
      simp only [propFields, mapOption, ih]
      cases hv : schemaToType v with
      | none => rfl
      | some t =>
          simp only [Option.map]
          generalize mapOption _ rest = o
          cases o <;> rfl

theorem mapOption_length {α β : Type} (f : α → Option β) :
    ∀ (l : List α) (fs : List β), mapOption f l = some fs → fs.length = l.length := by
  intro l
  induction l with
  | nil => intro fs h; simp [mapOption] at h; simp [← h]
  | cons x xs ih =>
      intro fs h
      simp only [mapOption] at h
      cases hx : f x with
      | none => simp [hx] at h
      | some b =>
          simp [hx] at h
          cases hxs : mapOption f xs with
          | none => simp [hxs] at h
          | some bs =>
              simp [hxs] at h
              subst h
              simp [ih bs hxs]

/-! Claim C7: union and intersection composition. -/

/-- C7: the two union-style spellings are treated identically, both
rendering the recursively mapped members joined by the union separator in
source order with no deduplication of repeated members, while the
intersection spelling joins by the intersection separator. -/
theorem c7_union_spellings (L : List Json) :
    schemaToType (Json.obj [("anyOf", Json.arr L)])
      = schemaToType (Json.obj [("oneOf", Json.arr L)])
    ∧ schemaToType (Json.obj [("anyOf", Json.arr L)])
      = (mapOption schemaToType L).map (String.intercalate " | ")
    ∧ schemaToType (Json.obj [("allOf", Json.arr L)])
      = (mapOption schemaToType L).map (String.intercalate " & ")
    ∧ schemaToType (Json.obj [("anyOf", Json.arr [tStr, tStr])])
      = some "string | string" := by
  refine ⟨?_, ?_, ?_, ?_⟩
  · simp [schemaToType, Json.getField, mapLookup, truthyField, isSchemaObject,
      Json.truthy]
  · simp [schemaToType, Json.getField, mapLookup, truthyField, isSchemaObject,
      Json.truthy, schemaListTypes_eq_mapOption]
  · simp [schemaToType, Json.getField, mapLookup, truthyField, isSchemaObject,
      Json.truthy, schemaListTypes_eq_mapOption]
  · simp [schemaToType, Json.getField, mapLookup, truthyField, isSchemaObject,
      Json.truthy, schemaListTypes, schemaToType_tStr]
    rfl

/-! Claim C8: fixed-shape objects. -/

theorem filterMap_str_names (R : List String) :
    List.filterMap ((fun x =>
      match x with
      | Json.str s => some s
      | _ => none) ∘ Json.str) R = R := by
  induction R with
  | nil => rfl
  | cons a t ih => simp [List.filterMap_cons, Function.comp, ih]

/-- An object schema node with declared properties and required names. -/
def mkObjSchema (P : List (String × Json)) (R : List String) : Json :=
  Json.obj [("type", Json.str "object"), ("properties", Json.obj P),
    ("required", Json.arr (R.map Json.str))]

/-- C8: a fixed-shape object schema with non-empty properties P and
required set R maps to a literal with exactly one field per property in
declaration order, each field optional exactly when its name is absent
from R, its value the recursively mapped property schema, fields joined
by the field separator. -/
theorem c8_object_literal (P : List (String × Json)) (R : List String)
    (hP : P ≠ []) :
    schemaToType (mkObjSchema P R)
      = (mapOption (fun kv => (schemaToType kv.2).map
          (fun t => kv.1 ++ (if R.contains kv.1 then "" else "?") ++ ": " ++ t)) P).map
        (fun fs => "\x7b " ++ String.intercalate "; " fs ++ " \x7d")
    ∧ (∀ fs, mapOption (fun kv => (schemaToType kv.2).map
          (fun t => kv.1 ++ (if R.contains kv.1 then "" else "?") ++ ": " ++ t)) P = some fs →
        fs.length = P.length) := by
  constructor
  · have hreq : requiredKeys (some (Json.arr (R.map Json.str))) = some R := by
      simp [requiredKeys, Json.truthy, filterMap_str_names]
    have h1 : schemaToType (mkObjSchema P R) = objectToType (mkObjSchema P R) := by
      simp [schemaToType, mkObjSchema, Json.getField, mapLookup, truthyField,
        isSchemaObject]
    have h2 : objectToType (mkObjSchema P R)
        = (match propFields R P with
           | none => none
           | some ps =>
               if ps.isEmpty then some "Record<string, unknown>"
               else some ("\x7b " ++ String.intercalate "; " ps ++ " \x7d")) := by
      simp [objectToType, mkObjSchema, Json.getField, mapLookup, truthyField,
        Json.truthy, Json.isStr, entriesOf, hreq]
    rw [← propFields_eq_mapOption, h1, h2]
    cases hpf : propFields R P with
    | none => rfl
    | some fs =>
        have hlen : fs.length = P.length := by
          have heq := propFields_eq_mapOption R P
          rw [heq] at hpf
          exact mapOption_length _ P fs hpf
        have hne : fs ≠ [] := by
          intro hfs
          apply hP
          apply List.length_eq_zero.mp
          rw [← hlen, hfs]
          rfl
        simp [List.isEmpty_iff, hne]
  · intro fs h
    exact mapOption_length _ P fs h

/-! Claim C3: totality of the mapper. -/

/-- Recognized values of the declared type field. -/
def isRecognizedTypeStr : Option Json → Bool
  | some (.str t) =>
      t == "string" || t == "number" || t == "integer" || t == "boolean"
        || t == "null" || t == "array" || t == "object"
  | _ => false

/-- A value matching none of the recognized schema shapes: either not a
truthy object at all, or an object node with no const, no truthy
enum/anyOf/oneOf/allOf, no recognized type tag and no truthy properties. -/
def matchesNoShape (j : Json) : Bool :=
  match j with
  | .obj _ =>
      (j.getField "const").isNone
      && (truthyField j "enum").isNone
      && (truthyField j "anyOf").isNone
      && (truthyField j "oneOf").isNone
      && (truthyField j "allOf").isNone
      && !(isRecognizedTypeStr (j.getField "type"))
      && (truthyField j "properties").isNone
  | _ => true

/-- C3 (counterexample): the mapper is not total on arbitrary input — a
node whose union field is truthy but not an array makes the JavaScript
code call .map on a non-array and throw a TypeError, modelled as none. -/
theorem c3_counterexample :
    schemaToType (Json.obj [("anyOf", Json.num 1)]) = none := by
  simp [schemaToType, Json.getField, mapLookup, truthyField, Json.truthy,
    isSchemaObject]

/-- C3 (amended): for null, non-objects and schema nodes matching none of
the recognized shapes, the mapper returns the fallback type without
throwing; termination holds for every input since the mapper is a total
function of this development. -/
theorem c3_fallback (j : Json) (h : matchesNoShape j = true) :
    schemaToType j = some "unknown" := by
  cases j with
  | null => simp [schemaToType, isSchemaObject]
  | bool b => simp [schemaToType, isSchemaObject]
  | num n => simp [schemaToType, isSchemaObject]
  | str s => simp [schemaToType, isSchemaObject]
  | arr xs => simp [schemaToType, isSchemaObject, Json.getField, truthyField]
  | obj fs =>
      simp only [matchesNoShape, Bool.and_eq_true, Option.isNone_iff_eq_none,
        Bool.not_eq_true'] at h
      obtain ⟨⟨⟨⟨⟨⟨hc, he⟩, ha⟩, ho⟩, hl⟩, ht⟩, hp⟩ := h
      simp only [schemaToType, isSchemaObject, Bool.not_true, hc, he]
      repeat
        first
        | rfl
        | (split <;> try simp_all [isRecognizedTypeStr])

/-! Claims C1 and C2: the two per-route shapes. -/

theorem tStr_truthy : tStr.truthy = true := rfl

theorem tNum_truthy : tNum.truthy = true := rfl

/-- A non-streaming route supplying only a params schema. -/
def cParamsRoute : RouteContract :=
  { method := "GET", path := "/x", schema := some { params := some tStr } }

/-- A non-streaming route supplying body and query schemas. -/
def cBodyQueryRoute : RouteContract :=
  { method := "POST", path := "/x",
    schema := some { body := some tStr, query := some tNum } }

/-- C1 (counterexample): a route supplying a params schema gets no params
parameter in the emitted invocable-function descriptor — the signature
consists of the trailing configuration parameter alone, and the text
params: occurs nowhere in it. -/
theorem c1_counterexample :
    generateMethodSignature cParamsRoute "get"
      = some "(config?: RequestConfig) => Promise<ApiResponse<any>>"
    ∧ ¬ ("params: ".data
        <:+: "(config?: RequestConfig) => Promise<ApiResponse<any>>".data) := by
  refine ⟨rfl, by decide⟩

/-- C1 (amended): for every non-streaming route the parameter list is a
body parameter when the body schema is supplied and truthy, then an
optional query parameter when the query schema is supplied and truthy,
then the trailing optional configuration parameter — no params parameter
is ever emitted — and the result wraps the mapped return type in the
response envelope. -/
theorem c1_signature (r : RouteContract) (m : String) (ob oq : Option String)
    (rt : String)
    (hsse : r.sse = false)
    (hb : optMappedType (schemaFieldOf r RouteSchema.body) = some ob)
    (hq : optMappedType (schemaFieldOf r RouteSchema.query) = some oq)
    (hret : returnTypeOf r = some rt) :
    generateMethodSignature r m = some ("(" ++ String.intercalate ", "
      ((ob.toList.map (fun t => "body: " ++ t))
        ++ (oq.toList.map (fun t => "query?: " ++ t))
        ++ ["config?: RequestConfig"])
      ++ ") => Promise<ApiResponse<" ++ rt ++ ">>") := by
  simp [generateMethodSignature, hsse, hb, hq, hret]

theorem c1_signature_witness :
    cBodyQueryRoute.sse = false
    ∧ optMappedType (schemaFieldOf cBodyQueryRoute RouteSchema.body)
      = some (some "string")
    ∧ optMappedType (schemaFieldOf cBodyQueryRoute RouteSchema.query)
      = some (some "number")
    ∧ returnTypeOf cBodyQueryRoute = some "any"
    ∧ generateMethodSignature cBodyQueryRoute "post"
      = some "(body: string, query?: number, config?: RequestConfig) => Promise<ApiResponse<any>>" := by
  have hb : optMappedType (schemaFieldOf cBodyQueryRoute RouteSchema.body)
      = some (some "string") := by
    simp [optMappedType, schemaFieldOf, cBodyQueryRoute, truthyOpt,
      tStr_truthy, schemaToType_tStr]
  have hq : optMappedType (schemaFieldOf cBodyQueryRoute RouteSchema.query)
      = some (some "number") := by
    simp [optMappedType, schemaFieldOf, cBodyQueryRoute, truthyOpt,
      tNum_truthy, schemaToType_tNum]
  have hret : returnTypeOf cBodyQueryRoute = some "any" := by
    simp [returnTypeOf, truthyOpt, schemaFieldOf, cBodyQueryRoute]
  refine ⟨rfl, hb, hq, hret, ?_⟩
  have h := c1_signature cBodyQueryRoute "post" (some "string") (some "number")
    "any" rfl hb hq hret
  exact h.trans (by rfl)

/-- A streaming route supplying a body schema. -/
def sseBodyRoute : RouteContract :=
  { method := "POST", path := "/x", sse := true,
    schema := some { body := some tStr } }

/-- C2 (counterexample): a streaming route with a supplied (truthy) body
schema gets no body field in its structural descriptor — only the return
field appears, so the descriptor does not contain a field for every
supplied schema. -/
theorem c2_counterexample :
    generateMethodType sseBodyRoute = some "\x7b return: any \x7d"
    ∧ ¬ ("body".data <:+: "\x7b return: any \x7d".data) := by
  refine ⟨rfl, by decide⟩

/-- C2 (amended): the structural descriptor contains a query field exactly
when the query schema is supplied and truthy, a body field exactly when
the body schema is supplied and truthy and the route is not streaming, a
params field exactly when the params schema is supplied and truthy, and
an always-present return field, last, carrying the fallback type when no
truthy response schema is given. -/
theorem c2_parts (r : RouteContract) (oq ob op oret : Option String)
    (hq : optMappedType (schemaFieldOf r RouteSchema.query) = some oq)
    (hb : (if r.sse then some none
           else optMappedType (schemaFieldOf r RouteSchema.body)) = some ob)
    (hp : optMappedType (schemaFieldOf r RouteSchema.params) = some op)
    (hret : optMappedType (schemaFieldOf r RouteSchema.response) = some oret) :
    generateMethodTypeParts r = some ((oq.toList.map (fun t => "query: " ++ t))
      ++ (ob.toList.map (fun t => "body: " ++ t))
      ++ (op.toList.map (fun t => "params: " ++ t))
      ++ [match oret with
          | some t => "return: " ++ t
          | none => "return: any"])
    ∧ (∀ ps, generateMethodTypeParts r = some ps →
        ps.getLast? = some (match oret with
          | some t => "return: " ++ t
          | none => "return: any")
        ∧ ps.length = oq.toList.length + ob.toList.length
            + op.toList.length + 1) := by
  have hmain : generateMethodTypeParts r
      = some ((oq.toList.map (fun t => "query: " ++ t))
        ++ (ob.toList.map (fun t => "body: " ++ t))
        ++ (op.toList.map (fun t => "params: " ++ t))
        ++ [match oret with
            | some t => "return: " ++ t
            | none => "return: any"]) := by
    simp [generateMethodTypeParts, hq, hb, hp, hret]
  refine ⟨hmain, ?_⟩
  intro ps hps
  rw [hmain] at hps
  have hps2 := Option.some.inj hps
  subst hps2
  cases oret with
  | some t =>
      refine ⟨List.getLast?_concat _, ?_⟩
      simp [List.length_append] <;> omega
  | none =>
      refine ⟨List.getLast?_concat _, ?_⟩
      simp [List.length_append] <;> omega

/-- A non-streaming route supplying query, body and params schemas and no
response schema. -/
def wAllFieldsRoute : RouteContract :=
  { method := "POST", path := "/x",
    schema := some (RouteSchema.mk (some tStr) (some tNum) (some tStr) none) }

theorem c2_parts_witness :
    optMappedType (schemaFieldOf wAllFieldsRoute RouteSchema.query)
      = some (some "number")
    ∧ (if wAllFieldsRoute.sse then some none
       else optMappedType (schemaFieldOf wAllFieldsRoute RouteSchema.body))
      = some (some "string")
    ∧ optMappedType (schemaFieldOf wAllFieldsRoute RouteSchema.params)
      = some (some "string")
    ∧ optMappedType (schemaFieldOf wAllFieldsRoute RouteSchema.response)
      = some none
    ∧ generateMethodTypeParts wAllFieldsRoute
      = some ["query: number", "body: string", "params: string", "return: any"] := by
  have hq : optMappedType (schemaFieldOf wAllFieldsRoute RouteSchema.query)
      = some (some "number") := by
    simp [optMappedType, schemaFieldOf, wAllFieldsRoute, truthyOpt,
      tNum_truthy, schemaToType_tNum]
  have hb : (if wAllFieldsRoute.sse then some none
      else optMappedType (schemaFieldOf wAllFieldsRoute RouteSchema.body))
      = some (some "string") := by
    simp [optMappedType, schemaFieldOf, wAllFieldsRoute, truthyOpt,
      tStr_truthy, schemaToType_tStr]
  have hp : optMappedType (schemaFieldOf wAllFieldsRoute RouteSchema.params)
      = some (some "string") := by
    simp [optMappedType, schemaFieldOf, wAllFieldsRoute, truthyOpt,
      tStr_truthy, schemaToType_tStr]
  have hret : optMappedType (schemaFieldOf wAllFieldsRoute RouteSchema.response)
      = some none := by
    simp [optMappedType, schemaFieldOf, wAllFieldsRoute, truthyOpt]
  refine ⟨hq, hb, hp, hret, ?_⟩
  have h := (c2_parts wAllFieldsRoute (some "number") (some "string")
    (some "string") none hq hb hp hret).1
  exact h.trans (by rfl)

/-! Claim C4: last-write-wins insertion. -/

theorem mapSet_lookup {α : Type} (m : List (String × α)) (k : String) (v : α) :
    mapLookup (mapSet m k v) k = some v := by
  induction m with
  | nil => simp [mapSet, mapLookup]
  | cons kv rest ih =>
      obtain ⟨k2, w⟩ := kv
      by_cases h : k2 = k
      · simp [mapSet, h, mapLookup]
      · simp [mapSet, h, mapLookup, ih]

theorem insertRoute_methodAt (r : RouteContract) :
    ∀ (segs : List String) (tree : List (String × RouteTreeNode)),
      segs ≠ [] →
      methodAt (insertRoute r segs tree) (segs.map canonKey) (methodKey r)
        = some r := by
  intro segs
  induction segs with
  | nil => intro tree h; exact absurd rfl h
  | cons seg rest ih =>
      intro tree _
      cases rest with
      | nil =>
          simp only [insertRoute, List.map]
          simp [methodAt, findNode, mapSet_lookup, RouteTreeNode.methods]
      | cons s2 rest2 =>
          simp only [insertRoute, List.map]
          simp only [methodAt, findNode, mapSet_lookup, RouteTreeNode.children]
          have := ih ((mapLookup tree (canonKey seg)).getD
            (RouteTreeNode.mk [] [] (strStartsWith seg ":"))).children (by simp)
          simpa [methodAt] using this

/-- C4: when two routes resolve to the same trie address and the same
method key, the route appearing later in the input wins: after the build,
the address holds the last such route, with no error raised (the builder
is a total function); for a non-streaming route the method key is the
lowercased verb, placed on the final segment node. -/
theorem c4_last_write_wins (rs : List RouteContract) (pfx : Option String)
    (r : RouteContract)
    (h : routeSegments (normalizePfx pfx) r.path ≠ []) :
    methodAt (buildRouteTree (rs ++ [r]) pfx)
      ((routeSegments (normalizePfx pfx) r.path).map canonKey) (methodKey r)
      = some r
    ∧ (r.sse = false → methodKey r = lowerStr r.method) := by
  constructor
  · have hne : (routeSegments (normalizePfx pfx) r.path).isEmpty = false :=
      List.isEmpty_eq_false.mpr h
    have hfold : buildRouteTree (rs ++ [r]) pfx
        = insertRoute r (routeSegments (normalizePfx pfx) r.path)
            (buildRouteTree rs pfx) := by
      simp [buildRouteTree, List.foldl_append, h]
    rw [hfold]
    exact insertRoute_methodAt r _ _ h
  · intro hsse
    simp [methodKey, hsse]

theorem c4_witness :
    routeSegments (normalizePfx none) "/users" ≠ []
    ∧ (routeSegments (normalizePfx none) "/users").map canonKey = ["users"]
    ∧ methodKey (RouteContract.mk "GET" "/users" none (some "v2") false none)
      = "get"
    ∧ methodAt (buildRouteTree
        ([RouteContract.mk "GET" "/users" none none false none]
          ++ [RouteContract.mk "GET" "/users" none (some "v2") false none]) none)
        ((routeSegments (normalizePfx none)
          (RouteContract.mk "GET" "/users" none (some "v2") false none).path).map
            canonKey)
        (methodKey (RouteContract.mk "GET" "/users" none (some "v2") false none))
      = some (RouteContract.mk "GET" "/users" none (some "v2") false none) := by
  have h : routeSegments (normalizePfx none) "/users" ≠ [] := by decide
  refine ⟨h, by decide, by decide, ?_⟩
  exact (c4_last_write_wins
    [RouteContract.mk "GET" "/users" none none false none] none
    (RouteContract.mk "GET" "/users" none (some "v2") false none) h).1

/-! Claim C5: prefix normalization, literal match, silent drop. -/

theorem head_dropWhile_not {α : Type} (p : α → Bool) :
    ∀ (l : List α) (a : α), (l.dropWhile p).head? = some a → p a = false := by
  intro l
  induction l with
  | nil => intro a h; simp [List.dropWhile] at h
  | cons x xs ih =>
      intro a h
      rw [List.dropWhile_cons] at h
      by_cases hx : p x
      · rw [if_pos hx] at h
        exact ih a h
      · rw [if_neg hx] at h
        simp at h
        subst h
        simpa using hx

/-- Example routes of the specification examples. -/
def exUsers : RouteContract := RouteContract.mk "GET" "/api/v1/users" none none false none

def exBilling : RouteContract :=
  RouteContract.mk "GET" "/billingRestfulApi/users" none none false none

/-- C5: the supplied option is normalized by trimming separator runs at
both ends and prepending exactly one separator; removal happens only on a
literal leading match; a route whose path yields no segments after
stripping contributes nothing to the trie; and the two specification
examples produce a root holding only the stripped child. -/
theorem c5_stripping :
    (∀ p : String, p ≠ "" →
      normalizePfx (some p) = some ("/" ++ trimSlashes p)
      ∧ (∀ c, (trimSlashes p).toList.head? = some c → c ≠ '/')
      ∧ (∀ c, (trimSlashes p).toList.getLast? = some c → c ≠ '/'))
    ∧ (∀ np path : String, strStartsWith path np = false →
        strippedPath (some np) path = path)
    ∧ (∀ np path : String, strStartsWith path np = true →
        strippedPath (some np) path
          = (if dropStr path (lengthStr np) = "" then "/"
             else dropStr path (lengthStr np)))
    ∧ (∀ (rs : List RouteContract) (r : RouteContract) (pfx : Option String),
        routeSegments (normalizePfx pfx) r.path = [] →
        buildRouteTree (rs ++ [r]) pfx = buildRouteTree rs pfx)
    ∧ buildRouteTree [exUsers] (some "/api/v1")
        = [("users", RouteTreeNode.mk [("get", exUsers)] [] false)]
    ∧ buildRouteTree [exBilling] (some "billingRestfulApi/")
        = [("users", RouteTreeNode.mk [("get", exBilling)] [] false)] := by
  refine ⟨?_, ?_, ?_, ?_, ?_, ?_⟩
  · intro p hp
    refine ⟨by simp [normalizePfx, beq_eq_false_iff_ne.mpr hp], ?_, ?_⟩
    · intro c hc
      obtain ⟨t, ht⟩ := List.dropWhile_suffix (l :=
        (p.toList.dropWhile (fun c => c == '/')).reverse) (fun c => c == '/')
      have ht2 : ((p.toList.dropWhile (fun c => c == '/')).reverse.dropWhile
          (fun c => c == '/')).reverse ++ t.reverse
          = p.toList.dropWhile (fun c => c == '/') := by
        have := congrArg List.reverse ht
        simpa [List.reverse_append] using this
      have hc2 : (p.toList.dropWhile (fun c => c == '/')).head? = some c := by
        rw [← ht2]
        rw [List.head?_append_of_ne_nil]
        · exact hc
        · intro hnil
          rw [show (trimSlashes p).toList
              = ((p.toList.dropWhile (fun c => c == '/')).reverse.dropWhile
                (fun c => c == '/')).reverse from rfl, hnil] at hc
          simp at hc
      have := head_dropWhile_not (fun c => c == '/') _ _ hc2
      simpa using this
    · intro c hc
      rw [show (trimSlashes p).toList
          = ((p.toList.dropWhile (fun c => c == '/')).reverse.dropWhile
            (fun c => c == '/')).reverse from rfl] at hc
      rw [List.getLast?_reverse] at hc
      have := head_dropWhile_not (fun c => c == '/') _ _ hc
      simpa using this
  · intro np path h
    simp [strippedPath, h]
  · intro np path h
    simp [strippedPath, h]
  · intro rs r pfx h
    simp [buildRouteTree, List.foldl_append, h]
  · rfl
  · rfl

theorem c5_witness :
    ("/api/v1" : String) ≠ ""
    ∧ normalizePfx (some "/api/v1") = some "/api/v1"
    ∧ strStartsWith "setup" "/api" = false
    ∧ strippedPath (some "/api") "setup" = "setup"
    ∧ routeSegments (normalizePfx (some "/api/v1")) "/api/v1" = []
    ∧ buildRouteTree [exUsers,
        RouteContract.mk "GET" "/api/v1" none none false none] (some "/api/v1")
      = buildRouteTree [exUsers] (some "/api/v1") := by
  have h1 : ("/api/v1" : String) ≠ "" := by simp
  have h3 : strStartsWith "setup" "/api" = false := by decide
  have h5 : routeSegments (normalizePfx (some "/api/v1")) "/api/v1" = [] := by
    decide
  refine ⟨h1, ?_, h3, (c5_stripping.2.1 "/api" "setup" h3), h5, ?_⟩
  · exact ((c5_stripping.1 "/api/v1" h1).1).trans (by rfl)
  · have h6 := c5_stripping.2.2.2.1 [exUsers]
      (RouteContract.mk "GET" "/api/v1" none none false none)
      (some "/api/v1")
    apply h6
    exact h5

theorem c3_fallback_witness :
    matchesNoShape (Json.obj [("description", Json.str "user id")]) = true
    ∧ schemaToType (Json.obj [("description", Json.str "user id")])
      = some "unknown" := by
  have h : matchesNoShape (Json.obj [("description", Json.str "user id")])
      = true := by decide
  exact ⟨h, c3_fallback _ h⟩

theorem c8_witness :
    ([("name", tStr)] : List (String × Json)) ≠ []
    ∧ schemaToType (mkObjSchema [("name", tStr)] ["name"])
      = (mapOption (fun kv => (schemaToType kv.2).map
          (fun t => kv.1 ++ (if (["name"] : List String).contains kv.1
            then "" else "?") ++ ": " ++ t)) [("name", tStr)]).map
        (fun fs => "\x7b " ++ String.intercalate "; " fs ++ " \x7d")
    ∧ schemaToType (mkObjSchema [("name", tStr)] ["name"])
      = some "\x7b name: string \x7d" := by
  have hne : ([("name", tStr)] : List (String × Json)) ≠ [] := by simp
  have h := (c8_object_literal [("name", tStr)] ["name"] hne).1
  refine ⟨hne, h, ?_⟩
  rw [h]
  simp [mapOption, schemaToType_tStr, List.contains]
  rfl

/-! Claim C6: dynamic-segment canonicalization. -/

/-- The key invariant: a key beginning with the dynamic marker is the
fixed sentinel. -/
def keyCanonOk (k : String) : Bool :=
  !(strStartsWith k ":") || (k == ":id")

/-- Every key of the trie, at every depth, satisfies the invariant. -/
def keysCanonical : List (String × RouteTreeNode) → Bool
  | [] => true
  | (k, RouteTreeNode.mk ms cs d) :: rest =>
      keyCanonOk k && keysCanonical cs && keysCanonical rest
termination_by tree => sizeOf tree

theorem keysCanonical_cons (k : String) (n : RouteTreeNode)
    (rest : List (String × RouteTreeNode)) :
    keysCanonical ((k, n) :: rest)
      = (keyCanonOk k && keysCanonical n.children && keysCanonical rest) := by
  cases n
  simp [keysCanonical, RouteTreeNode.children]

theorem keysCanonical_lookup :
    ∀ (tree : List (String × RouteTreeNode)) (k : String) (n : RouteTreeNode),
      keysCanonical tree = true → mapLookup tree k = some n →
      keysCanonical n.children = true := by
  intro tree
  induction tree with
  | nil => intro k n _ h; simp [mapLookup] at h
  | cons kv rest ih =>
      intro k n htree hl
      obtain ⟨k2, n2⟩ := kv
      rw [keysCanonical_cons] at htree
      simp only [Bool.and_eq_true] at htree
      simp only [mapLookup] at hl
      by_cases hk : k2 = k
      · rw [if_pos hk] at hl
        rw [← Option.some.inj hl]
        exact htree.1.2
      · rw [if_neg hk] at hl
        exact ih k n htree.2 hl

theorem keysCanonical_mapSet :
    ∀ (tree : List (String × RouteTreeNode)) (k : String) (n : RouteTreeNode),
      keysCanonical tree = true → keyCanonOk k = true →
      keysCanonical n.children = true →
      keysCanonical (mapSet tree k n) = true := by
  intro tree
  induction tree with
  | nil =>
      intro k n _ hk hn
      simp [mapSet, keysCanonical_cons, hk, hn, keysCanonical]
  | cons kv rest ih =>
      intro k n htree hk hn
      obtain ⟨k2, n2⟩ := kv
      rw [keysCanonical_cons] at htree
      simp only [Bool.and_eq_true] at htree
      simp only [mapSet]
      by_cases he : k2 = k
      · rw [if_pos he]
        rw [keysCanonical_cons]
        subst he
        simp [htree.1.1, hk, hn, htree.2]
      · rw [if_neg he]
        rw [keysCanonical_cons]
        simp [htree.1.1, htree.1.2, ih k n htree.2 hk hn]

theorem canonKey_ok (seg : String) : keyCanonOk (canonKey seg) = true := by
  by_cases h : strStartsWith seg ":"
  · simp [canonKey, h, keyCanonOk]
  · simp [canonKey, h, keyCanonOk]

theorem insertRoute_canonical (r : RouteContract) :
    ∀ (segs : List String) (tree : List (String × RouteTreeNode)),
      keysCanonical tree = true →
      keysCanonical (insertRoute r segs tree) = true := by
  intro segs
  induction segs with
  | nil => intro tree h; simpa [insertRoute] using h
  | cons seg rest ih =>
      intro tree htree
      have hchild : keysCanonical ((mapLookup tree (canonKey seg)).getD
          (RouteTreeNode.mk [] [] (strStartsWith seg ":"))).children = true := by
        cases hl : mapLookup tree (canonKey seg) with
        | some n => simpa using keysCanonical_lookup tree (canonKey seg) n htree hl
        | none => simp [RouteTreeNode.children, keysCanonical]
      cases rest with
      | nil =>
          simp only [insertRoute]
          apply keysCanonical_mapSet tree (canonKey seg) _ htree (canonKey_ok seg)
          simpa [RouteTreeNode.children] using hchild
      | cons s2 rest2 =>
          simp only [insertRoute]
          apply keysCanonical_mapSet tree (canonKey seg) _ htree (canonKey_ok seg)
          simp only [RouteTreeNode.children]
          exact ih _ hchild

theorem buildRouteTree_canonical (rs : List RouteContract)
    (pfx : Option String) : keysCanonical (buildRouteTree rs pfx) = true := by
  have hgen : ∀ (l : List RouteContract) (tree : List (String × RouteTreeNode)),
      keysCanonical tree = true →
      keysCanonical (l.foldl (fun tree route =>
        let segs := routeSegments (normalizePfx pfx) route.path
        if segs.isEmpty then tree else insertRoute route segs tree) tree)
        = true := by
    intro l
    induction l with
    | nil => intro tree h; simpa using h
    | cons r rest ih =>
        intro tree htree
        simp only [List.foldl]
        apply ih
        by_cases hseg : (routeSegments (normalizePfx pfx) r.path).isEmpty
        · simpa [hseg] using htree
        · simp only [hseg, if_neg, Bool.false_eq_true]
          simpa using insertRoute_canonical r _ tree htree
  exact hgen rs [] (by simp [keysCanonical])

/-- The two specification example routes with dynamic segments. -/
def exUserId : RouteContract :=
  RouteContract.mk "GET" "/users/:userId" none none false none

def exPostId : RouteContract :=
  RouteContract.mk "GET" "/posts/:postId" none none false none

/-- C6: every dynamic segment is keyed in the trie by the fixed sentinel
regardless of its literal parameter name — every key of every built trie
satisfies the invariant that a key starting with the dynamic marker is
exactly the sentinel — and the two example routes produce sibling
subtrees each with the one sentinel child, the parameter names appearing
nowhere. -/
theorem c6_dynamic_sentinel :
    (∀ (rs : List RouteContract) (pfx : Option String),
      keysCanonical (buildRouteTree rs pfx) = true)
    ∧ (∀ seg : String, strStartsWith seg ":" = true → canonKey seg = ":id")
    ∧ buildRouteTree [exUserId, exPostId] none
      = [("users", RouteTreeNode.mk []
            [(":id", RouteTreeNode.mk [("get", exUserId)] [] true)] false),
         ("posts", RouteTreeNode.mk []
            [(":id", RouteTreeNode.mk [("get", exPostId)] [] true)] false)] := by
  refine ⟨buildRouteTree_canonical, ?_, rfl⟩
  intro seg h
  simp [canonKey, h]

theorem c6_witness :
    keysCanonical (buildRouteTree [exUserId, exPostId] none) = true
    ∧ strStartsWith ":userId" ":" = true
    ∧ canonKey ":userId" = ":id" := by
  refine ⟨c6_dynamic_sentinel.1 [exUserId, exPostId] none, by decide, ?_⟩
  exact c6_dynamic_sentinel.2.1 ":userId" (by decide)

/-! Claim C9: identifier quoting. -/

/-- A plain identifier: characters in the identifier class only and no
leading digit. -/
def plainIdent (k : String) : Bool :=
  k.toList.all (fun c => c.isAlphanum || c == '_' || c == '$')
    && !(match k.toList with
         | [] => false
         | c :: _ => c.isDigit)

/-- C9: both emitters quote a trie key exactly when it contains a
character outside the identifier class or starts with a digit; the two
declarations use the same test and render identically; the dynamic
sentinel is always quoted and a plain identifier key never is. -/
theorem c9_quoting :
    (∀ k, treeNeedsQuotes k = clientNeedsQuotes k)
    ∧ (∀ k, treePropName k = clientPropName k)
    ∧ treePropName ":id" = "\x27:id\x27"
    ∧ clientPropName ":id" = "\x27:id\x27"
    ∧ (∀ k, plainIdent k = true →
        treeNeedsQuotes k = false ∧ treePropName k = k)
    ∧ (∀ k c, c ∈ k.toList → (c.isAlphanum || c == '_' || c == '$') = false →
        treeNeedsQuotes k = true ∧ treePropName k = "\x27" ++ k ++ "\x27") := by
  refine ⟨fun k => rfl, fun k => rfl, by decide, by decide, ?_, ?_⟩
  · intro k h
    simp only [plainIdent, Bool.and_eq_true, List.all_eq_true,
      Bool.not_eq_true'] at h
    have hq : treeNeedsQuotes k = false := by
      simp only [treeNeedsQuotes, Bool.or_eq_false_iff]
      constructor
      · rw [List.any_eq_false]
        intro c hc
        simp [h.1 c hc]
      · exact h.2
    exact ⟨hq, by simp [treePropName, hq]⟩
  · intro k c hc hcp
    have hq : treeNeedsQuotes k = true := by
      simp only [treeNeedsQuotes, Bool.or_eq_true]
      left
      rw [List.any_eq_true]
      exact ⟨c, hc, by simp [hcp]⟩
    exact ⟨hq, by simp [treePropName, hq]⟩

theorem c9_witness :
    plainIdent "users" = true
    ∧ treeNeedsQuotes "users" = false
    ∧ treePropName "users" = "users"
    ∧ (':' ∈ (":id").toList
        ∧ (Char.isAlphanum ':' || ':' == '_' || ':' == '$') = false)
    ∧ treeNeedsQuotes ":id" = true
    ∧ treePropName ":id" = "\x27:id\x27" := by
  have h1 : plainIdent "users" = true := by decide
  have h2 := c9_quoting.2.2.2.2.1 "users" h1
  have h3 : ':' ∈ (":id").toList := by decide
  have h4 : (Char.isAlphanum ':' || ':' == '_' || ':' == '$') = false := by
    decide
  have h5 := c9_quoting.2.2.2.2.2 ":id" ':' h3 h4
  exact ⟨h1, h2.1, h2.2, ⟨h3, h4⟩, h5.1, h5.2⟩

/-! Claim C10: the reserved streaming method key. -/

def rSseEvents : RouteContract :=
  RouteContract.mk "GET" "/events" none none true none

/-- A streaming route whose verb is literally SSE. -/
def rStreamSse : RouteContract :=
  RouteContract.mk "SSE" "/events" none none true none

/-- A non-streaming route with the same verb SSE at the same path. -/
def rVerbSse : RouteContract :=
  RouteContract.mk "SSE" "/events" none none false none

def rGetEvents : RouteContract :=
  RouteContract.mk "GET" "/events" none none false none

/-- C10 (counterexample): a streaming route and a non-streaming route with
the same verb SSE ending at the same trie node do NOT occupy distinct
method keys — the streaming route is keyed by the reserved string and the
verb lowercases to the same string — so the later route silently
overwrites the earlier one and the built node holds a single method entry
carrying only the later route. -/
theorem c10_counterexample :
    rStreamSse.method = rVerbSse.method
    ∧ rStreamSse.sse = true
    ∧ rVerbSse.sse = false
    ∧ methodKey rStreamSse = "sse"
    ∧ methodKey rVerbSse = "sse"
    ∧ methodKey rStreamSse = methodKey rVerbSse
    ∧ buildRouteTree [rStreamSse, rVerbSse] none
      = [("events", RouteTreeNode.mk [("sse", rVerbSse)] [] false)] := by
  refine ⟨rfl, rfl, rfl, rfl, by decide, by decide, rfl⟩

/-- C10 (amended): every streaming route is keyed by the reserved string
sse regardless of its verb; a streaming route and a non-streaming route
with the same verb ending at the same trie node occupy distinct method
keys provided that verb does not lowercase to the reserved string, as in
the example where both survive side by side. -/
theorem c10_reserved_key :
    (∀ r : RouteContract, r.sse = true → methodKey r = "sse")
    ∧ (∀ r r2 : RouteContract, r.sse = true → r2.sse = false →
        r.method = r2.method → lowerStr r2.method ≠ "sse" →
        methodKey r ≠ methodKey r2)
    ∧ buildRouteTree [rSseEvents, rGetEvents] none
      = [("events", RouteTreeNode.mk
          [("sse", rSseEvents), ("get", rGetEvents)] [] false)] := by
  refine ⟨?_, ?_, rfl⟩
  · intro r h
    simp [methodKey, h]
  · intro r r2 h h2 hv h3
    simp only [methodKey, h, h2, if_true, Bool.false_eq_true, if_false]
    intro he
    exact h3 he.symm

theorem c10_witness :
    rSseEvents.sse = true
    ∧ rGetEvents.sse = false
    ∧ rSseEvents.method = rGetEvents.method
    ∧ lowerStr rGetEvents.method ≠ "sse"
    ∧ methodKey rSseEvents = "sse"
    ∧ methodKey rSseEvents ≠ methodKey rGetEvents := by
  have h3 : lowerStr rGetEvents.method ≠ "sse" := by decide
  exact ⟨rfl, rfl, rfl, h3, c10_reserved_key.1 rSseEvents rfl,
    c10_reserved_key.2.1 rSseEvents rGetEvents rfl rfl rfl h3⟩

end VafastCli
